import Mathlib

/-!
Formal model of the Catan settlement-placement optimizer.

This file gives a shallow embedding of the repository's core modules
(board.py, quality.py, state.py, solver.py) and proves the testable
properties stated in the specification against that embedding.

Modelling conventions:
  - Python floats are modelled by exact rationals (all quantities involved
    are rational: dice probabilities k/36, weights, 2.0/0.5 coefficients);
    the float negative-infinity sentinel is modelled by `WithBot ℚ`
    (with `⊥` playing the role of `-inf`).
  - Python dicts keyed by vertices (always 0..53) are modelled by total
    functions with the dict's `.get` default where the source uses `.get`.
  - Methods that can raise (ValueError / TypeError) return `Except String _`.
  - The random shuffles performed during board construction are modelled by
    passing the post-shuffle sequences as explicit arguments.
-/

/-- The six Catan resource kinds (board.py RESOURCE_COUNTS keys). -/
inductive Resource where
  | wood | brick | wheat | ore | sheep | desert
deriving DecidableEq

/-- board.py VERTEX_TO_TILES: exact vertex-to-tiles table (vertex, tile ids). -/
def VERTEX_TO_TILES : List (ℕ × List ℕ) := [
  (0, [0, 1]), (1, [0, 1, 4]), (2, [0, 3, 4]), (3, [0, 3]), (4, [0]), (5, [0]),
  (6, [1, 2]), (7, [1, 2, 5]), (8, [1, 4, 5]), (9, [1]), (10, [2]), (11, [2, 6]),
  (12, [2, 5, 6]), (13, [2]),
  (14, [3, 4, 8]), (15, [3, 7, 8]), (16, [3, 7]), (17, [3]),
  (18, [4, 5, 9]), (19, [4, 8, 9]),
  (20, [5, 6, 10]), (21, [5, 9, 10]), (22, [6]), (23, [6, 11]), (24, [6, 10, 11]),
  (25, [7, 8, 12]), (26, [7, 12]), (27, [7]), (28, [7]),
  (29, [8, 9, 13]), (30, [8, 12, 13]),
  (31, [9, 10, 14]), (32, [9, 13, 14]),
  (33, [10, 11, 15]), (34, [10, 14, 15]), (35, [11]), (36, [11]), (37, [11, 15]),
  (38, [12, 13, 16]), (39, [12, 16]), (40, [12]),
  (41, [13, 14, 17]), (42, [13, 16, 17]),
  (43, [14, 15, 18]), (44, [14, 17, 18]), (45, [15]), (46, [15, 18]),
  (47, [16, 17]), (48, [16]), (49, [16]),
  (50, [17, 18]), (51, [17]), (52, [18]), (53, [18])]

/-- board.py VERTEX_NEIGHBORS: exact vertex-neighbor table for the distance rule. -/
def VERTEX_NEIGHBORS : List (ℕ × List ℕ) := [
  (0, [1, 5, 9]), (1, [0, 2, 8]), (2, [1, 3, 14]), (3, [2, 4, 17]), (4, [3, 5]), (5, [0, 4]),
  (6, [7, 9, 13]), (7, [6, 8, 12]), (8, [1, 7, 18]), (9, [0, 6]),
  (10, [11, 13]), (11, [10, 12, 22]), (12, [7, 11, 20]), (13, [6, 10]),
  (14, [2, 15, 19]), (15, [14, 16, 25]), (16, [15, 17, 28]), (17, [3, 16]),
  (18, [8, 19, 21]), (19, [14, 18, 29]), (20, [12, 21, 24]), (21, [18, 20, 31]),
  (22, [11, 23]), (23, [22, 24, 35]), (24, [20, 23, 33]),
  (25, [15, 26, 30]), (26, [25, 27, 40]), (27, [26, 28]), (28, [16, 27]),
  (29, [19, 30, 32]), (30, [25, 29, 38]), (31, [21, 32, 34]), (32, [29, 31, 41]),
  (33, [24, 34, 37]), (34, [31, 33, 43]), (35, [23, 36]), (36, [35, 37]), (37, [33, 36, 45]),
  (38, [30, 39, 42]), (39, [38, 40, 49]), (40, [26, 39]),
  (41, [32, 42, 44]), (42, [38, 41, 47]), (43, [34, 44, 46]), (44, [41, 43, 50]),
  (45, [37, 46]), (46, [43, 45, 52]), (47, [42, 48, 51]), (48, [47, 49]), (49, [39, 48]),
  (50, [44, 51, 53]), (51, [47, 50]), (52, [46, 53]), (53, [50, 52])]

/-- state.py uses `board.vertex_neighbors.get(vertex, set())`; the table covers 0..53. -/
def vertex_neighbors (v : ℕ) : List ℕ := (VERTEX_NEIGHBORS.lookup v).getD []

/-- board.py `tiles_touching[vertex]`; the table covers exactly the vertices 0..53
that every caller draws from `board.vertices`. -/
def tiles_touching (v : ℕ) : List ℕ := (VERTEX_TO_TILES.lookup v).getD []

/-- board.py `_compute_dice_probabilities`, combined with the `.get(n, 0.0)`
default used at every read: ways/36 for 2 ≤ n ≤ 12, with ways = n-1 below 7
and 13-n above; 0 for any other value. -/
def dice_probabilities (n : ℕ) : ℚ :=
  if 2 ≤ n ∧ n ≤ 12 then (if n ≤ 7 then ((n - 1 : ℕ) : ℚ) else ((13 - n : ℕ) : ℚ)) / 36 else 0

/-- A Catan board after construction (board.py `Board.__init__`): the player
count, the three quality weights, and the resource/number-token assignment
produced by the random shuffles.  Geometry (vertex/neighbor/tile tables) is
fixed global data and lives outside the structure, as in the source where it
is a class constant. -/
structure Board where
  num_players : ℕ
  w_resources : ℚ
  w_expected_cards : ℚ
  w_prob_at_least_one : ℚ
  tileResource : ℕ → Resource
  tileNumber : ℕ → Option ℕ

/-- quality.py `resource_score`: 0 on the empty list; otherwise
(number of distinct non-desert resource types touched) * 2.0 +
(number of non-desert (vertex, tile) incidences) * 0.5. -/
def resource_score (vertices : List ℕ) (b : Board) : ℚ :=
  if vertices = [] then 0
  else
    let touched := vertices.flatMap fun v => tiles_touching v
    let non_desert := touched.filter fun t => b.tileResource t ≠ Resource.desert
    let num_types := ((non_desert.map b.tileResource).dedup).length
    let total_tiles := non_desert.length
    (num_types : ℚ) * 2 + (total_tiles : ℚ) * (1 / 2)

/-- The tile loop of quality.py `expected_cards`: walk the (vertex, tile)
incidences, skip tiles already counted, skip desert tiles and tiles without a
number token, and add the dice probability of each remaining tile once,
recording it in `counted`. -/
def expected_cards_go (b : Board) : List ℕ → List ℕ → ℚ
  | _, [] => 0
  | counted, t :: ts =>
    if t ∈ counted then expected_cards_go b counted ts
    else if b.tileResource t = Resource.desert then expected_cards_go b counted ts
    else
      match b.tileNumber t with
      | none => expected_cards_go b counted ts
      | some n => dice_probabilities n + expected_cards_go b (t :: counted) ts

/-- quality.py `expected_cards`. -/
def expected_cards (vertices : List ℕ) (b : Board) : ℚ :=
  if vertices = [] then 0
  else expected_cards_go b [] (vertices.flatMap fun v => tiles_touching v)

/-- quality.py `prob_at_least_one`: collect the number tokens of touched
non-desert tiles (with multiplicity, as the source does), return 0 if there
are none, otherwise 1 minus the total probability of the roll values 2..12
that do not appear among the collected tokens. -/
def prob_at_least_one (vertices : List ℕ) (b : Board) : ℚ :=
  if vertices = [] then 0
  else
    let tile_numbers := vertices.flatMap fun v => (tiles_touching v).filterMap fun t =>
      if b.tileResource t = Resource.desert then none else b.tileNumber t
    if tile_numbers = [] then 0
    else
      let prob_no_resource :=
        ((List.range' 2 11).map fun roll =>
          if roll ∈ tile_numbers then 0 else dice_probabilities roll).sum
      1 - prob_no_resource

/-- quality.py `compute_quality`: the weighted combination of the three
component scores. -/
def compute_quality (vertices : List ℕ) (b : Board)
    (w_res w_exp w_prob : ℚ) : ℚ :=
  w_res * resource_score vertices b + w_exp * expected_cards vertices b +
    w_prob * prob_at_least_one vertices b

/-- board.py `_precompute_single_quality` entry for one vertex. -/
def Board.single_quality (b : Board) (v : ℕ) : ℚ :=
  compute_quality [v] b b.w_resources b.w_expected_cards b.w_prob_at_least_one

/-- board.py `_precompute_pair_quality` entry: `-inf` (here `⊥`) on the
diagonal, otherwise the quality of the two-vertex list.  The source computes
the same inner dict for every player key 1..num_players — the body does not
depend on `player` — so the model takes and ignores the player argument. -/
def Board.pair_quality (b : Board) (player v1 v2 : ℕ) : WithBot ℚ :=
  if v1 = v2 then ⊥
  else ((compute_quality [v1, v2] b b.w_resources b.w_expected_cards b.w_prob_at_least_one : ℚ) : WithBot ℚ)

/-- state.py `State`: per-player settlement lists, the vertex-to-owner map,
and the set of still-available vertices.  `houses` and `occupied` are total
functions standing for the dicts initialised over players 1..4 and vertices
0..53 respectively. -/
structure State where
  houses : ℕ → List ℕ
  occupied : ℕ → Option ℕ
  available_vertices : Finset ℕ

/-- state.py `State.__init__` body: empty houses, no owners, all 54 vertices
available (`board.vertices` is always `range(54)`). -/
def State.empty : State :=
  { houses := fun _ => []
    occupied := fun _ => none
    available_vertices := Finset.range 54 }

/-- Python call semantics for the expression `State(board, **kwargs)`:
`State.__init__(self, board)` declares no keyword parameters besides `board`,
so any keyword argument is rejected with a TypeError before the initializer
body runs; with no keyword arguments the empty state is built. -/
def stateNew (board : Board) (kwargs : List (String × ℕ)) : Except String State :=
  match kwargs with
  | [] => Except.ok State.empty
  | (k, _) :: _ =>
    Except.error ("TypeError: State.__init__ got an unexpected keyword argument " ++ k)

/-- state.py `State.is_feasible`: the vertex must be available, unoccupied,
and have no occupied neighbor (distance rule, player-agnostic). -/
def State.is_feasible (s : State) (player vertex : ℕ) : Bool :=
  if vertex ∉ s.available_vertices then false
  else if (s.occupied vertex).isSome then false
  else (vertex_neighbors vertex).all fun n => (s.occupied n).isNone

/-- state.py `State.get_feasible_positions`: the available vertices passing
`is_feasible` (the source materialises them as a list by iterating the
available set; the set of elements is what matters everywhere they are
consumed). -/
def State.get_feasible_positions (s : State) (player : ℕ) : Finset ℕ :=
  s.available_vertices.filter fun v => s.is_feasible player v = true

/-- The successful branch of state.py `State.place_settlement`: append the
vertex to the player's list, record the owner, drop the vertex from the
available set.  Nothing else is touched. -/
def State.placeUpdate (s : State) (player vertex : ℕ) : State :=
  { houses := fun p => if p = player then s.houses p ++ [vertex] else s.houses p
    occupied := fun v => if v = vertex then some player else s.occupied v
    available_vertices := s.available_vertices.erase vertex }

/-- state.py `State.place_settlement`: raise if the vertex is unavailable,
then if it is infeasible; otherwise perform the three updates. -/
def State.place_settlement (s : State) (player vertex : ℕ) : Except String State :=
  if vertex ∉ s.available_vertices then
    Except.error "ValueError: vertex is not available"
  else if ¬ s.is_feasible player vertex = true then
    Except.error "ValueError: placing settlement at vertex is not feasible"
  else
    Except.ok (s.placeUpdate player vertex)

/-- state.py `State.quality_of_player`: raise unless the player holds exactly
two settlements, else look up the precomputed pair quality of the two. -/
def State.quality_of_player (b : Board) (s : State) (player : ℕ) : Except String (WithBot ℚ) :=
  if (s.houses player).length ≠ 2 then
    Except.error "ValueError: player does not have exactly 2 settlements"
  else
    Except.ok (b.pair_quality player ((s.houses player).getD 0 0) ((s.houses player).getD 1 0))

/-- state.py `State.upper_bound_for_player_given_first`: the maximum
precomputed pair quality over the currently feasible second positions other
than `first_pos`; `-inf` (⊥) when there is none.  `Finset.sup` returns ⊥ on
the empty set and the maximum otherwise, exactly like the source's
max-accumulator loop started at `-float('inf')`. -/
def State.upper_bound_for_player_given_first (b : Board) (s : State)
    (player first_pos : ℕ) : WithBot ℚ :=
  ((s.get_feasible_positions player).erase first_pos).sup fun v =>
    b.pair_quality player first_pos v

/-- solver.py `Solver` after `__init__` (solver.py lines 19-56): the board,
the player count read from the board, and the four switches after the legacy
`enable_pruning=False` normalisation.  The constructor performs no
validation of any argument. -/
structure Solver where
  board : Board
  num_players : ℕ
  enable_feasibility : Bool
  enable_upper_bound : Bool
  enable_memo : Bool
  enable_pruning : Bool

/-- The switch arguments of solver.py `Solver.__init__` with their defaults. -/
structure SolverConfig where
  enable_pruning : Bool := true
  enable_feasibility : Bool := true
  enable_upper_bound : Bool := true
  enable_memo : Bool := true

/-- solver.py `Solver.__init__`: normalise the legacy flag and store the
switches; it has no failure path, so it always returns a solver. -/
def Solver.make (board : Board) (cfg : SolverConfig) : Except String Solver :=
  let ef := if ¬ cfg.enable_pruning then false else cfg.enable_feasibility
  let eu := if ¬ cfg.enable_pruning then false else cfg.enable_upper_bound
  let em := if ¬ cfg.enable_pruning then false else cfg.enable_memo
  Except.ok
    { board := board
      num_players := board.num_players
      enable_feasibility := ef
      enable_upper_bound := eu
      enable_memo := em
      enable_pruning := ef || eu }

/-- The memoization key built inline in solver.py `Solver.dfs` (lines 84-88):
the current player, the ascending list of occupied vertices (ownership
deliberately discarded), and the ascending list of available vertices. -/
def solverMemoKey (player : ℕ) (s : State) : ℕ × List ℕ × List ℕ :=
  (player,
   (List.range 54).filter fun v => (s.occupied v).isSome,
   s.available_vertices.sort (· ≤ ·))

/-- The solver's memo table: key ↦ (best payoff, decisions), where decisions
maps each player ≥ the key's player to its two chosen vertices. -/
def Memo := List ((ℕ × List ℕ × List ℕ) × (WithBot ℚ × List (ℕ × List ℕ)))

/-- Replay of cached first-settlement decisions on a memo hit (solver.py
lines 100-106): for each player of the given list in order, place its first
recorded vertex if a decision with at least one vertex is recorded. -/
def replayFirsts (players : List ℕ) (decisions : List (ℕ × List ℕ)) (st : State) :
    Except String State :=
  players.foldlM (fun acc p =>
    match decisions.lookup p with
    | none => Except.ok acc
    | some vs =>
      match vs with
      | [] => Except.ok acc
      | v0 :: _ => acc.place_settlement p v0) st

/-- Replay of cached second-settlement decisions (solver.py lines 108-113):
for each player of the given list in order, place its second recorded vertex
if a decision with at least two vertices is recorded. -/
def replaySeconds (players : List ℕ) (decisions : List (ℕ × List ℕ)) (st : State) :
    Except String State :=
  players.foldlM (fun acc p =>
    match decisions.lookup p with
    | none => Except.ok acc
    | some vs =>
      match vs with
      | _ :: v1 :: _ => acc.place_settlement p v1
      | _ => Except.ok acc) st

/-- State reconstruction on a memo hit (solver.py lines 95-116): clone the
state, replay first settlements for players p..N in forward order, then
second settlements for players N..p in reverse order. -/
def reconstructFromMemo (sv : Solver) (player : ℕ) (decisions : List (ℕ × List ℕ))
    (st : State) : Except String State :=
  match replayFirsts (List.range' player (sv.num_players + 1 - player)) decisions st with
  | Except.error e => Except.error e
  | Except.ok st1 =>
    replaySeconds (List.range' player (sv.num_players + 1 - player)).reverse decisions st1

/-- The best-second-settlement scan of solver.py `Solver.dfs` (lines 196-204):
a strict-improvement fold started at `(-inf, None)`, so ties keep the first
candidate encountered. -/
def bestSecond (b : Board) (player first_pos : ℕ) (candidates : List ℕ) :
    WithBot ℚ × Option ℕ :=
  candidates.foldl
    (fun acc v =>
      let val := b.pair_quality player first_pos v
      if acc.1 < val then (val, some v) else acc)
    (⊥, none)

/-- The candidate loop of solver.py `Solver.dfs` (lines 163-218), with the
recursive call on later players abstracted as the continuation `recurse`.
Carries the incumbent `(best_value, best_state)` and threads the memo table;
exceptions raised by `place_settlement` propagate. -/
def dfsLoop (b : Board) (sv : Solver) (player : ℕ)
    (recurse : State → Memo → Except String (Option State × Memo)) :
    List ℕ → State → Memo → WithBot ℚ → Option State →
    Except String (WithBot ℚ × Option State × Memo)
  | [], _, memo, best_value, best_state => Except.ok (best_value, best_state, memo)
  | first_pos :: rest, s, memo, best_value, best_state =>
    if ¬ s.is_feasible player first_pos = true then
      dfsLoop b sv player recurse rest s memo best_value best_state
    else if sv.enable_upper_bound = true ∧
        s.upper_bound_for_player_given_first b player first_pos ≤ best_value then
      dfsLoop b sv player recurse rest s memo best_value best_state
    else
      match s.place_settlement player first_pos with
      | Except.error e => Except.error e
      | Except.ok s1 =>
        match recurse s1 memo with
        | Except.error e => Except.error e
        | Except.ok (none, memo') =>
          dfsLoop b sv player recurse rest s memo' best_value best_state
        | Except.ok (some s2, memo') =>
          let second_candidates :=
            ((s2.get_feasible_positions player).erase first_pos).sort (· ≤ ·)
          match bestSecond b player first_pos second_candidates with
          | (_, none) => dfsLoop b sv player recurse rest s memo' best_value best_state
          | (best_val, some second_pos) =>
            match s2.place_settlement player second_pos with
            | Except.error e => Except.error e
            | Except.ok s_final =>
              if best_value < best_val then
                dfsLoop b sv player recurse rest s memo' best_val (some s_final)
              else
                dfsLoop b sv player recurse rest s memo' best_value best_state

/-- The decisions extracted for memo storage (solver.py lines 221-229): the
players ≥ `player` holding exactly two settlements in the best state. -/
def extractDecisions (sv : Solver) (player : ℕ) (best_state : Option State) :
    List (ℕ × List ℕ) :=
  match best_state with
  | none => []
  | some st =>
    ((List.range' player (sv.num_players + 1 - player)).filter
      fun p => (st.houses p).length = 2).map fun p => (p, st.houses p)

/-- solver.py `Solver.dfs`: base case on player > N, memo lookup with decision
replay on a hit, candidate generation and ordering (descending by upper bound
when enabled, else by single quality; both orderings enumerate the feasible
set in ascending vertex order first, standing for the source's deterministic
iteration), the candidate loop, and the memo store.  The recursion is
structural on an explicit depth bound; `solve` supplies `num_players + 1`,
which the `player + 1` recursion never exhausts. -/
def dfs (b : Board) (sv : Solver) : ℕ → ℕ → State → Memo →
    Except String (Option State × Memo)
  | 0, _, _, _ => Except.error "RecursionError: depth bound exhausted"
  | fuel + 1, player, s, memo =>
    if player > sv.num_players then Except.ok (some s, memo)
    else
      let key := solverMemoKey player s
      let hit := if sv.enable_memo then memo.lookup key else none
      match hit with
      | some (_, decisions) =>
        match reconstructFromMemo sv player decisions s with
        | Except.error e => Except.error e
        | Except.ok reconstructed => Except.ok (some reconstructed, memo)
      | none =>
        let first_candidates0 := (s.get_feasible_positions player).sort (· ≤ ·)
        if first_candidates0 = [] then
          if sv.enable_memo then Except.ok (none, (key, (⊥, [])) :: memo)
          else Except.ok (none, memo)
        else
          let feas := first_candidates0.filter fun pos => s.is_feasible player pos
          let first_candidates :=
            if sv.enable_upper_bound then
              ((feas.map fun pos =>
                  (s.upper_bound_for_player_given_first b player pos, pos)).mergeSort
                (fun x y => decide (y.1 ≤ x.1))).map (·.2)
            else
              ((feas.map fun pos => (b.single_quality pos, pos)).mergeSort
                (fun x y => decide (y.1 ≤ x.1))).map (·.2)
          match dfsLoop b sv player (dfs b sv fuel (player + 1)) first_candidates s memo
              ⊥ none with
          | Except.error e => Except.error e
          | Except.ok (best_value, best_state, memo') =>
            if sv.enable_memo then
              Except.ok (best_state,
                (key, (best_value, extractDecisions sv player best_state)) :: memo')
            else Except.ok (best_state, memo')

/-- solver.py `Solver.solve` (lines 233-268): reset bookkeeping (performance
counters are not modelled), build the initial state via
`State(self.board, num_players=self.num_players)`, run the search from player
1, and package player 1's positions and quality. -/
def Solver.solve (sv : Solver) :
    Except String (Option State × Option (ℕ × ℕ) × Option (WithBot ℚ)) :=
  match stateNew sv.board [("num_players", sv.num_players)] with
  | Except.error e => Except.error e
  | Except.ok initial_state =>
    match dfs sv.board sv (sv.num_players + 1) 1 initial_state [] with
    | Except.error e => Except.error e
    | Except.ok (none, _) => Except.ok (none, none, none)
    | Except.ok (some final_state, _) =>
      if (final_state.houses 1).length ≠ 2 then
        Except.ok (some final_state, none, none)
      else
        match final_state.quality_of_player sv.board 1 with
        | Except.error e => Except.error e
        | Except.ok q =>
          Except.ok (some final_state,
            some ((final_state.houses 1).getD 0 0, (final_state.houses 1).getD 1 0),
            some q)

/-- Spec formula (spec §4.1, resource score): with T the set of distinct
non-desert resource types touched and C the count of non-desert
(vertex, tile) incidences, the score is 2·|T| + 0.5·C. -/
def specResourceScore (vertices : List ℕ) (b : Board) : ℚ :=
  let incidences := (vertices.flatMap fun v => tiles_touching v).filter
    fun t => b.tileResource t ≠ Resource.desert
  let T : Finset Resource := (incidences.map b.tileResource).toFinset
  2 * (T.card : ℚ) + (1 / 2) * (incidences.length : ℚ)

/-- Spec formula (spec §4.1, expected cards): the sum, over the distinct
non-desert tiles touched by any input vertex (a shared tile counted once), of
the tile's dice-roll probability. -/
def specExpectedCards (vertices : List ℕ) (b : Board) : ℚ :=
  ∑ t ∈ ((vertices.flatMap fun v => tiles_touching v).toFinset.filter
      fun t => b.tileResource t ≠ Resource.desert),
    dice_probabilities ((b.tileNumber t).getD 0)

/-- Spec formula (spec §4.1, probability of at least one card): 1 minus the
total probability of the roll values 2..12 whose number is not in the set of
number tokens on touched non-desert tiles (deduplicated by value). -/
def specProbAtLeastOne (vertices : List ℕ) (b : Board) : ℚ :=
  let numbers : Finset ℕ := (vertices.flatMap fun v => (tiles_touching v).filterMap fun t =>
    if b.tileResource t = Resource.desert then none else b.tileNumber t).toFinset
  1 - ((List.range' 2 11).map fun roll =>
    if roll ∈ numbers then 0 else dice_probabilities roll).sum

/-- Spec formula (spec §4.1, combined): w1·resource + w2·expected_cards +
w3·prob_at_least_one. -/
def specQuality (vertices : List ℕ) (b : Board) (w1 w2 w3 : ℚ) : ℚ :=
  w1 * specResourceScore vertices b + w2 * specExpectedCards vertices b +
    w3 * specProbAtLeastOne vertices b

/-- A board is well-formed in the sense of the board-content invariants
(spec §3, §8): every non-desert tile carries a number token. -/
def Board.wellFormed (b : Board) : Prop :=
  ∀ t : ℕ, b.tileResource t ≠ Resource.desert → (b.tileNumber t).isSome = true

/-- board.py `Board.__init__`: store the player count and the weights (the
default equal weights when none are given), and derive the tile contents from
the shuffled resource sequence and the shuffled number-token sequence --- the
i-th tile takes the i-th shuffled resource, and the i-th non-desert tile (in
tile order) takes the i-th shuffled token.  No argument is validated and
there is no failure path, hence the unconditional `ok`. -/
def Board.make (num_players : ℕ) (quality_weights : Option (ℚ × ℚ × ℚ))
    (shuffled_resources : List Resource) (shuffled_tokens : List ℕ) :
    Except String Board :=
  let w := quality_weights.getD (1 / 3, 1 / 3, 1 / 3)
  let res : ℕ → Resource := fun t => shuffled_resources.getD t Resource.desert
  Except.ok
    { num_players := num_players
      w_resources := w.1
      w_expected_cards := w.2.1
      w_prob_at_least_one := w.2.2
      tileResource := res
      tileNumber := fun t =>
        if res t = Resource.desert then none
        else shuffled_tokens.get? (((List.range t).filter
          fun u => res u ≠ Resource.desert).length) }

/-- The standard resource multiset of board.py RESOURCE_COUNTS, in one of its
possible shuffle orders. -/
def standardResources : List Resource :=
  [Resource.wood, Resource.wood, Resource.wood, Resource.wood,
   Resource.brick, Resource.brick, Resource.brick,
   Resource.wheat, Resource.wheat, Resource.wheat, Resource.wheat,
   Resource.ore, Resource.ore, Resource.ore,
   Resource.sheep, Resource.sheep, Resource.sheep, Resource.sheep,
   Resource.desert]

/-- board.py NUMBER_TOKENS. -/
def NUMBER_TOKENS : List ℕ := [2, 3, 3, 4, 4, 5, 5, 6, 6, 8, 8, 9, 9, 10, 10, 11, 11, 12]

/-- A concrete board used to instantiate theorems with hypotheses: four
players, default weights, every tile producing wood on an 8.  It is
well-formed in the sense of `Board.wellFormed`. -/
def sampleBoard : Board :=
  { num_players := 4
    w_resources := 1 / 3
    w_expected_cards := 1 / 3
    w_prob_at_least_one := 1 / 3
    tileResource := fun _ => Resource.wood
    tileNumber := fun _ => some 8 }

/-- Reachability between states: the reflexive-transitive closure of
successful `place_settlement` calls, the only operation that modifies a
state during the search. -/
inductive Steps : State → State → Prop where
  | refl (s : State) : Steps s s
  | tail {s t u : State} (h : Steps s t) (p v : ℕ)
      (hp : t.place_settlement p v = Except.ok u) : Steps s u

/-- The state invariant maintained by the search: occupied vertices are not
available, the houses lists agree with the ownership map, and no two occupied
vertices are adjacent. -/
def StateInv (s : State) : Prop :=
  (∀ v, (s.occupied v).isSome = true → v ∉ s.available_vertices) ∧
  (∀ p v, v ∈ s.houses p → s.occupied v = some p) ∧
  (∀ u v, (s.occupied u).isSome = true → (s.occupied v).isSome = true →
    v ∉ vertex_neighbors u)

lemma lookup_eq_none_of_ge {α : Type} (K : ℕ) :
    ∀ (l : List (ℕ × α)) (u : ℕ), (∀ kv ∈ l, kv.1 < K) → K ≤ u → l.lookup u = none := by
  intro l
  induction l with
  | nil => intro u _ _; rfl
  | cons kv tl ih =>
    intro u hall hu
    have hk : kv.1 < K := hall kv (List.mem_cons_self kv tl)
    have hne : u ≠ kv.1 := by omega
    obtain ⟨k, v⟩ := kv
    rw [List.lookup_cons]
    simp only [beq_eq_false_iff_ne.mpr hne]
    exact ih u (fun x hx => hall x (List.mem_cons_of_mem _ hx)) hu

lemma vertex_neighbors_of_ge {u : ℕ} (hu : 54 ≤ u) : vertex_neighbors u = [] := by
  unfold vertex_neighbors
  rw [lookup_eq_none_of_ge 54 VERTEX_NEIGHBORS u (by decide) hu]
  rfl

lemma vertex_neighbors_table :
    ∀ u : Fin 54, (vertex_neighbors u.val).all
      (fun v => decide (u.val ∈ vertex_neighbors v) && decide (v < 54) &&
        decide (v ≠ u.val)) = true := by decide

lemma vertex_neighbors_symm {u v : ℕ} (h : v ∈ vertex_neighbors u) :
    u ∈ vertex_neighbors v := by
  rcases lt_or_ge u 54 with hu | hu
  · have := vertex_neighbors_table ⟨u, hu⟩
    rw [List.all_eq_true] at this
    have hv := this v h
    simp only [Bool.and_eq_true, decide_eq_true_eq] at hv
    exact hv.1.1
  · rw [vertex_neighbors_of_ge hu] at h
    cases h

lemma vertex_neighbors_irrefl (u : ℕ) : u ∉ vertex_neighbors u := by
  intro h
  rcases lt_or_ge u 54 with hu | hu
  · have := vertex_neighbors_table ⟨u, hu⟩
    rw [List.all_eq_true] at this
    have hv := this u h
    simp only [Bool.and_eq_true, decide_eq_true_eq] at hv
    exact hv.2 rfl
  · rw [vertex_neighbors_of_ge hu] at h
    cases h

lemma is_feasible_iff (s : State) (player vertex : ℕ) :
    s.is_feasible player vertex = true ↔
      vertex ∈ s.available_vertices ∧ s.occupied vertex = none ∧
        ∀ n ∈ vertex_neighbors vertex, s.occupied n = none := by
  unfold State.is_feasible
  split_ifs with h1 h2
  · simp only [false_iff]
    rintro ⟨-, hocc, -⟩
    rw [hocc] at h2
    simp at h2
  · rw [List.all_eq_true]
    simp only [Option.isNone_iff_eq_none]
    exact ⟨fun h => ⟨h1, Option.not_isSome_iff_eq_none.mp h2, h⟩, fun h => h.2.2⟩
  · simp [h1]

lemma place_settlement_ok_iff (s : State) (player vertex : ℕ) (u : State) :
    s.place_settlement player vertex = Except.ok u ↔
      s.is_feasible player vertex = true ∧ u = s.placeUpdate player vertex := by
  unfold State.place_settlement
  by_cases h1 : vertex ∈ s.available_vertices
  · by_cases h2 : s.is_feasible player vertex = true
    · simp [h1, h2, eq_comm]
    · simp [h1, h2]
  · have h2 : ¬ s.is_feasible player vertex = true := by
      rw [is_feasible_iff]; tauto
    simp [h1, h2]

lemma place_settlement_error_iff (s : State) (player vertex : ℕ) :
    (∃ e, s.place_settlement player vertex = Except.error e) ↔
      ¬ (vertex ∈ s.available_vertices ∧ s.is_feasible player vertex = true) := by
  unfold State.place_settlement
  by_cases h1 : vertex ∈ s.available_vertices
  · by_cases h2 : s.is_feasible player vertex = true
    · simp [h1, h2]
    · simp [h1, h2]
  · simp [h1]

lemma is_feasible_placeUpdate {s : State} {q w p v : ℕ}
    (h : (s.placeUpdate q w).is_feasible p v = true) : s.is_feasible p v = true := by
  rw [is_feasible_iff] at h ⊢
  obtain ⟨hav, hocc, hnbr⟩ := h
  refine ⟨Finset.mem_of_mem_erase hav, ?_, ?_⟩
  · simp only [State.placeUpdate] at hocc
    by_cases hv : v = w
    · simp [hv] at hocc
    · simpa [hv] using hocc
  · intro n hn
    have := hnbr n hn
    simp only [State.placeUpdate] at this
    by_cases hnw : n = w
    · simp [hnw] at this
    · simpa [hnw] using this

lemma is_feasible_steps {s t : State} (h : Steps s t) (p v : ℕ)
    (hf : t.is_feasible p v = true) : s.is_feasible p v = true := by
  induction h with
  | refl => exact hf
  | tail h p' v' hp ih =>
    rw [place_settlement_ok_iff] at hp
    exact ih (by rw [hp.2] at hf; exact is_feasible_placeUpdate hf)

lemma stateInv_empty : StateInv State.empty := by
  refine ⟨?_, ?_, ?_⟩
  · intro v hv
    simp [State.empty] at hv
  · intro p v hv
    simp [State.empty] at hv
  · intro u v hu hv
    simp [State.empty] at hu

lemma stateInv_placeUpdate {s : State} {p w : ℕ}
    (hfeas : s.is_feasible p w = true) (hinv : StateInv s) :
    StateInv (s.placeUpdate p w) := by
  obtain ⟨hav, hho, hdist⟩ := hinv
  rw [is_feasible_iff] at hfeas
  obtain ⟨hwav, hwocc, hwnbr⟩ := hfeas
  refine ⟨?_, ?_, ?_⟩
  · intro v hv
    simp only [State.placeUpdate] at hv ⊢
    by_cases hvw : v = w
    · subst hvw; exact Finset.not_mem_erase v _
    · intro hmem
      exact hav v (by simpa [hvw] using hv) (Finset.mem_of_mem_erase hmem)
  · intro q v hv
    simp only [State.placeUpdate] at hv ⊢
    by_cases hqp : q = p
    · subst hqp
      rw [if_pos rfl] at hv
      rcases List.mem_append.mp hv with hv | hv
      · have := hho q v hv
        by_cases hvw : v = w
        · subst hvw; rw [this] at hwocc; cases hwocc
        · simpa [hvw] using this
      · have hvw : v = w := by simpa using hv
        subst hvw; simp
    · rw [if_neg hqp] at hv
      have := hho q v hv
      by_cases hvw : v = w
      · subst hvw; rw [this] at hwocc; cases hwocc
      · simpa [hvw, hqp] using this
  · intro u v hu hv hmem
    simp only [State.placeUpdate] at hu hv
    by_cases huw : u = w <;> by_cases hvw : v = w
    · subst huw; subst hvw
      exact vertex_neighbors_irrefl _ hmem
    · subst huw
      have hvocc : (s.occupied v).isSome = true := by simpa [hvw] using hv
      have := hwnbr v hmem
      rw [this] at hvocc; cases hvocc
    · subst hvw
      have huocc : (s.occupied u).isSome = true := by simpa [huw] using hu
      have := hwnbr u (vertex_neighbors_symm hmem)
      rw [this] at huocc; cases huocc
    · exact hdist u v (by simpa [huw] using hu) (by simpa [hvw] using hv) hmem

lemma stateInv_steps {s t : State} (h : Steps s t) (hs : StateInv s) : StateInv t := by
  induction h with
  | refl => exact hs
  | tail h p v hp ih =>
    rw [place_settlement_ok_iff] at hp
    rw [hp.2]
    exact stateInv_placeUpdate hp.1 ih

/-- C4: in every state reachable from the empty initial state by successful
`place_settlement` calls, no occupied vertex lies in the neighbor set of
another occupied vertex (distance rule), and no vertex belongs to two
players' settlement lists. -/
theorem reachable_distance_rule (s : State) (h : Steps State.empty s) :
    (∀ u v, (s.occupied u).isSome = true → (s.occupied v).isSome = true →
      v ∉ vertex_neighbors u) ∧
    (∀ p q v, v ∈ s.houses p → v ∈ s.houses q → p = q) := by
  have hinv := stateInv_steps h stateInv_empty
  obtain ⟨-, hho, hdist⟩ := hinv
  refine ⟨hdist, ?_⟩
  intro p q v hp hq
  have h1 := hho p v hp
  have h2 := hho q v hq
  rw [h1] at h2
  exact Option.some_inj.mp h2

/-- Witness for `reachable_distance_rule` at a concrete reachable state: the
empty state extended by player 1 settling vertex 0 and player 2 settling
vertex 2. -/
theorem reachable_distance_rule_witness :
    ((State.empty.placeUpdate 1 0).placeUpdate 2 2).occupied 0 = some 1 ∧
    ((State.empty.placeUpdate 1 0).placeUpdate 2 2).occupied 2 = some 2 ∧
    (∀ u v, ((((State.empty.placeUpdate 1 0).placeUpdate 2 2)).occupied u).isSome = true →
      ((((State.empty.placeUpdate 1 0).placeUpdate 2 2)).occupied v).isSome = true →
      v ∉ vertex_neighbors u) := by
  refine ⟨rfl, rfl, ?_⟩
  have hstep1 : State.empty.place_settlement 1 0 = Except.ok (State.empty.placeUpdate 1 0) := by
    rw [place_settlement_ok_iff]
    exact ⟨by decide, rfl⟩
  have hstep2 : (State.empty.placeUpdate 1 0).place_settlement 2 2 =
      Except.ok ((State.empty.placeUpdate 1 0).placeUpdate 2 2) := by
    rw [place_settlement_ok_iff]
    exact ⟨by decide, rfl⟩
  exact (reachable_distance_rule _
    (Steps.tail (Steps.tail (Steps.refl _) 1 0 hstep1) 2 2 hstep2)).1

/-- C3: upper-bound admissibility.  For a reachable state `s`, a player `p`
and a feasible first position, the precomputed upper bound dominates the pair
quality of every second position that is still feasible for `p` in any state
reachable from the branch obtained by placing the first settlement — hence it
dominates the best pair quality achievable in any descendant of that branch. -/
theorem upper_bound_admissible (b : Board) (p first_pos v2 : ℕ) (s s' : State)
    (hreach : Steps State.empty s)
    (hfeas1 : s.is_feasible p first_pos = true)
    (hdesc : Steps (s.placeUpdate p first_pos) s')
    (hfeas2 : s'.is_feasible p v2 = true)
    (hne : v2 ≠ first_pos) :
    b.pair_quality p first_pos v2 ≤
      s.upper_bound_for_player_given_first b p first_pos := by
  have hfeas_branch : (s.placeUpdate p first_pos).is_feasible p v2 = true :=
    is_feasible_steps hdesc p v2 hfeas2
  have hfeas_s : s.is_feasible p v2 = true := is_feasible_placeUpdate hfeas_branch
  have hmem : v2 ∈ (s.get_feasible_positions p).erase first_pos := by
    rw [Finset.mem_erase]
    refine ⟨hne, ?_⟩
    rw [State.get_feasible_positions, Finset.mem_filter]
    exact ⟨(is_feasible_iff s p v2).mp hfeas_s |>.1, hfeas_s⟩
  exact Finset.le_sup hmem

/-- Witness for `upper_bound_admissible`: on the sample board, with the empty
state, player 1 placing first at vertex 0, and vertex 2 (not a neighbor of 0)
as the descendant-feasible second position. -/
theorem upper_bound_admissible_witness :
    State.empty.is_feasible 1 0 = true ∧
    (State.empty.placeUpdate 1 0).is_feasible 1 2 = true ∧
    sampleBoard.pair_quality 1 0 2 ≤
      State.empty.upper_bound_for_player_given_first sampleBoard 1 0 :=
  ⟨by decide, by decide,
    upper_bound_admissible sampleBoard 1 0 2 State.empty (State.empty.placeUpdate 1 0)
      (Steps.refl _) (by decide) (Steps.refl _) (by decide) (by decide)⟩

/-- C5: the `place_settlement` contract.  The call fails exactly when the
vertex is unavailable or infeasible (and then no updated state is produced,
the checks preceding every mutation); on success it appends the vertex to the
player's list, records the owner, removes the vertex from the available set,
and changes nothing else — in particular the vertex's neighbors stay in the
available set. -/
theorem place_settlement_contract (s : State) (player vertex : ℕ) :
    ((∃ e, s.place_settlement player vertex = Except.error e) ↔
      (vertex ∉ s.available_vertices ∨ ¬ s.is_feasible player vertex = true)) ∧
    (∀ s', s.place_settlement player vertex = Except.ok s' →
      s'.houses player = s.houses player ++ [vertex] ∧
      (∀ q, q ≠ player → s'.houses q = s.houses q) ∧
      s'.occupied vertex = some player ∧
      (∀ w, w ≠ vertex → s'.occupied w = s.occupied w) ∧
      s'.available_vertices = s.available_vertices.erase vertex ∧
      (∀ n ∈ vertex_neighbors vertex, n ≠ vertex →
        (n ∈ s'.available_vertices ↔ n ∈ s.available_vertices))) := by
  constructor
  · rw [place_settlement_error_iff]
    tauto
  · intro s' hok
    rw [place_settlement_ok_iff] at hok
    obtain ⟨-, rfl⟩ := hok
    refine ⟨by simp [State.placeUpdate], ?_, by simp [State.placeUpdate], ?_, rfl, ?_⟩
    · intro q hq
      simp [State.placeUpdate, hq]
    · intro w hw
      simp [State.placeUpdate, hw]
    · intro n _ hn
      simp [State.placeUpdate, Finset.mem_erase, hn]

/-- Witness for `place_settlement_contract`: player 1 successfully settles
vertex 0 in the empty state and the three updates are observed. -/
theorem place_settlement_contract_witness :
    (State.empty.placeUpdate 1 0).houses 1 = State.empty.houses 1 ++ [0] ∧
    (State.empty.placeUpdate 1 0).occupied 0 = some 1 ∧
    (State.empty.placeUpdate 1 0).available_vertices =
      State.empty.available_vertices.erase 0 := by
  have h := (place_settlement_contract State.empty 1 0).2 (State.empty.placeUpdate 1 0)
    (by rw [place_settlement_ok_iff]; exact ⟨by decide, rfl⟩)
  exact ⟨h.1, h.2.2.1, h.2.2.2.2.1⟩

/-- C6: the solver's memoization key is ownership-insensitive.  Any two states
that agree on which vertices are occupied (regardless of by whom) and on the
available set produce the same memo key at the same recursion depth. -/
theorem memo_key_ownership_insensitive (player : ℕ) (s t : State)
    (hocc : ∀ v, v < 54 → (s.occupied v).isSome = (t.occupied v).isSome)
    (hav : s.available_vertices = t.available_vertices) :
    solverMemoKey player s = solverMemoKey player t := by
  unfold solverMemoKey
  rw [hav]
  have : ((List.range 54).filter fun v => (s.occupied v).isSome) =
      ((List.range 54).filter fun v => (t.occupied v).isSome) :=
    List.filter_congr fun v hv => hocc v (List.mem_range.mp hv)
  rw [this]

/-- Witness for `memo_key_ownership_insensitive`: the states in which player 1
and player 2 respectively settled vertex 0 have different owners at vertex 0
but identical memo keys. -/
theorem memo_key_ownership_insensitive_witness :
    (State.empty.placeUpdate 1 0).occupied 0 = some 1 ∧
    (State.empty.placeUpdate 2 0).occupied 0 = some 2 ∧
    solverMemoKey 3 (State.empty.placeUpdate 1 0) =
      solverMemoKey 3 (State.empty.placeUpdate 2 0) :=
  ⟨rfl, rfl,
    memo_key_ownership_insensitive 3 (State.empty.placeUpdate 1 0)
      (State.empty.placeUpdate 2 0) (by decide) rfl⟩

/-- C2: for every solver (hence every board and switch configuration),
`solve` raises a TypeError while constructing the initial state — before any
search takes place — because `State.__init__` does not accept the
`num_players` keyword argument that `solve` passes. -/
theorem solve_raises_type_error (sv : Solver) :
    sv.solve = Except.error
      "TypeError: State.__init__ got an unexpected keyword argument num_players" := rfl

/-- C1 evaluation: `solve` never returns a result, for any board and any
combination of the pruning/memoization switches, so in particular it cannot
return the pruning-independent solution the specification promises; the
TypeError raised while building the initial state pre-empts the search. -/
theorem solve_never_returns_ok (sv : Solver) : sv.solve.isOk = false := rfl

/-- C8 counterexample: constructing a board with 7 players (outside the
supported range 2..4) and constructing a solver on it both succeed — no
validation rejects the configuration at construction time. -/
theorem board_construction_accepts_out_of_range_players :
    ¬ (2 ≤ 7 ∧ 7 ≤ 4) ∧
    (Board.make 7 none standardResources NUMBER_TOKENS).isOk = true ∧
    ((Board.make 7 none standardResources NUMBER_TOKENS).toOption.elim true
      fun b => (Solver.make b {}).isOk) = true := by
  exact ⟨by decide, rfl, rfl⟩

/-- C8 amended: board and solver construction perform no validation at all —
they succeed for every player count, every weight vector and every shuffle
outcome, so out-of-range configurations are not rejected before search. -/
theorem construction_never_validates (num_players : ℕ)
    (quality_weights : Option (ℚ × ℚ × ℚ)) (shuffled_resources : List Resource)
    (shuffled_tokens : List ℕ) (b : Board) (cfg : SolverConfig) :
    (Board.make num_players quality_weights shuffled_resources shuffled_tokens).isOk = true ∧
    (Solver.make b cfg).isOk = true := ⟨rfl, rfl⟩

lemma expected_cards_go_eq (b : Board) (l : List ℕ) :
    ∀ counted : List ℕ,
    expected_cards_go b counted l =
      ∑ t ∈ l.toFinset.filter (fun t => t ∉ counted ∧
          b.tileResource t ≠ Resource.desert ∧ (b.tileNumber t).isSome = true),
        dice_probabilities ((b.tileNumber t).getD 0) := by
  induction l with
  | nil => intro counted; simp [expected_cards_go]
  | cons t ts ih =>
    intro counted
    by_cases hmem : t ∈ counted
    · rw [show expected_cards_go b counted (t :: ts) = expected_cards_go b counted ts
        from by simp [expected_cards_go, hmem]]
      rw [ih counted, List.toFinset_cons, Finset.filter_insert,
        if_neg (by simp [hmem])]
    · by_cases hdes : b.tileResource t = Resource.desert
      · rw [show expected_cards_go b counted (t :: ts) = expected_cards_go b counted ts
          from by simp [expected_cards_go, hmem, hdes]]
        rw [ih counted, List.toFinset_cons, Finset.filter_insert,
          if_neg (by simp [hdes])]
      · cases hnum : b.tileNumber t with
        | none =>
          rw [show expected_cards_go b counted (t :: ts) = expected_cards_go b counted ts
            from by simp [expected_cards_go, hmem, hdes, hnum]]
          rw [ih counted, List.toFinset_cons, Finset.filter_insert,
            if_neg (by simp [hnum])]
        | some n =>
          rw [show expected_cards_go b counted (t :: ts) =
              dice_probabilities n + expected_cards_go b (t :: counted) ts
            from by simp [expected_cards_go, hmem, hdes, hnum]]
          rw [ih (t :: counted)]
          have hset : (t :: ts).toFinset.filter (fun x => x ∉ counted ∧
              b.tileResource x ≠ Resource.desert ∧ (b.tileNumber x).isSome = true) =
            insert t (ts.toFinset.filter (fun x => x ∉ t :: counted ∧
              b.tileResource x ≠ Resource.desert ∧ (b.tileNumber x).isSome = true)) := by
            ext x
            simp only [Finset.mem_filter, Finset.mem_insert, List.toFinset_cons,
              List.mem_cons, not_or]
            by_cases hxt : x = t
            · subst hxt
              simp [hmem, hdes, hnum]
            · simp [hxt]
          rw [hset, Finset.sum_insert (by simp)]
          congr 1
          simp [hnum]

lemma resource_score_eq_spec (vertices : List ℕ) (b : Board) (hne : vertices ≠ []) :
    resource_score vertices b = specResourceScore vertices b := by
  simp only [resource_score, specResourceScore, if_neg hne]
  rw [List.card_toFinset]
  ring

lemma expected_cards_eq_spec (vertices : List ℕ) (b : Board) (hne : vertices ≠ [])
    (hwf : b.wellFormed) :
    expected_cards vertices b = specExpectedCards vertices b := by
  simp only [expected_cards, specExpectedCards, if_neg hne]
  rw [expected_cards_go_eq]
  apply Finset.sum_congr
  · apply Finset.filter_congr
    intro x _
    constructor
    · exact fun h => h.2.1
    · exact fun h => ⟨List.not_mem_nil x, h, hwf x h⟩
  · intro _ _; rfl

lemma prob_at_least_one_eq_spec (vertices : List ℕ) (b : Board) (hne : vertices ≠ []) :
    prob_at_least_one vertices b = specProbAtLeastOne vertices b := by
  simp only [prob_at_least_one, specProbAtLeastOne, if_neg hne]
  by_cases h : (vertices.flatMap fun v => (tiles_touching v).filterMap fun t =>
      if b.tileResource t = Resource.desert then none else b.tileNumber t) = []
  · rw [if_pos h, h]
    norm_num [List.range', dice_probabilities]
  · rw [if_neg h]
    have : ∀ roll ∈ List.range' 2 11,
        (if roll ∈ (vertices.flatMap fun v => (tiles_touching v).filterMap fun t =>
            if b.tileResource t = Resource.desert then none else b.tileNumber t)
          then (0 : ℚ) else dice_probabilities roll) =
        (if roll ∈ (vertices.flatMap fun v => (tiles_touching v).filterMap fun t =>
            if b.tileResource t = Resource.desert then none else b.tileNumber t).toFinset
          then (0 : ℚ) else dice_probabilities roll) := by
      intro roll _
      exact if_congr List.mem_toFinset.symm rfl rfl
    rw [List.map_congr_left this]

/-- C7: on a well-formed board, for a non-empty duplicate-free list of at
most two vertices, `compute_quality` equals the specification's reference
formula, and the empty vertex list scores 0. -/
theorem compute_quality_matches_spec (b : Board) (w1 w2 w3 : ℚ) :
    compute_quality [] b w1 w2 w3 = 0 ∧
    (∀ vertices : List ℕ, vertices ≠ [] → vertices.Nodup → vertices.length ≤ 2 →
      b.wellFormed → compute_quality vertices b w1 w2 w3 = specQuality vertices b w1 w2 w3) := by
  constructor
  · simp [compute_quality, resource_score, expected_cards, prob_at_least_one]
  · intro vertices hne _ _ hwf
    unfold compute_quality specQuality
    rw [resource_score_eq_spec vertices b hne, expected_cards_eq_spec vertices b hne hwf,
      prob_at_least_one_eq_spec vertices b hne]

/-- Witness for `compute_quality_matches_spec`: the sample board with the
two-vertex list [0, 1]. -/
theorem compute_quality_matches_spec_witness :
    compute_quality [] sampleBoard (1/3) (1/3) (1/3) = 0 ∧
    compute_quality [0, 1] sampleBoard (1/3) (1/3) (1/3) =
      specQuality [0, 1] sampleBoard (1/3) (1/3) (1/3) :=
  ⟨(compute_quality_matches_spec sampleBoard (1/3) (1/3) (1/3)).1,
    (compute_quality_matches_spec sampleBoard (1/3) (1/3) (1/3)).2 [0, 1]
      (by decide) (by decide) (by decide) (fun t _ => rfl)⟩

lemma resource_score_perm {l l' : List ℕ} (b : Board) (h : l.Perm l') :
    resource_score l b = resource_score l' b := by
  by_cases hl : l = []
  · subst hl
    rw [h.symm.eq_nil]
  · have hl' : l' ≠ [] := fun he => hl (by rw [he] at h; exact h.eq_nil)
    simp only [resource_score, if_neg hl, if_neg hl']
    have htouched := h.flatMap_right fun v => tiles_touching v
    have hnd := htouched.filter fun t => decide (b.tileResource t ≠ Resource.desert)
    rw [hnd.length_eq, ((hnd.map b.tileResource).dedup).length_eq]

lemma expected_cards_perm {l l' : List ℕ} (b : Board) (h : l.Perm l') :
    expected_cards l b = expected_cards l' b := by
  by_cases hl : l = []
  · subst hl
    rw [h.symm.eq_nil]
  · have hl' : l' ≠ [] := fun he => hl (by rw [he] at h; exact h.eq_nil)
    simp only [expected_cards, if_neg hl, if_neg hl']
    rw [expected_cards_go_eq, expected_cards_go_eq,
      List.toFinset_eq_of_perm _ _ (h.flatMap_right fun v => tiles_touching v)]

lemma prob_at_least_one_perm {l l' : List ℕ} (b : Board) (h : l.Perm l') :
    prob_at_least_one l b = prob_at_least_one l' b := by
  by_cases hl : l = []
  · subst hl
    rw [h.symm.eq_nil]
  · have hl' : l' ≠ [] := fun he => hl (by rw [he] at h; exact h.eq_nil)
    simp only [prob_at_least_one, if_neg hl, if_neg hl']
    have htn := h.flatMap_right fun v => (tiles_touching v).filterMap fun t =>
      if b.tileResource t = Resource.desert then none else b.tileNumber t
    by_cases he : (l.flatMap fun v => (tiles_touching v).filterMap fun t =>
        if b.tileResource t = Resource.desert then none else b.tileNumber t) = []
    · have he' := he ▸ htn
      rw [if_pos he, if_pos he'.symm.eq_nil]
    · have he' : (l'.flatMap fun v => (tiles_touching v).filterMap fun t =>
          if b.tileResource t = Resource.desert then none else b.tileNumber t) ≠ [] :=
        fun hx => he (by rw [hx] at htn; exact htn.eq_nil)
      rw [if_neg he, if_neg he']
      have : ∀ roll ∈ List.range' 2 11,
          (if roll ∈ (l.flatMap fun v => (tiles_touching v).filterMap fun t =>
              if b.tileResource t = Resource.desert then none else b.tileNumber t)
            then (0 : ℚ) else dice_probabilities roll) =
          (if roll ∈ (l'.flatMap fun v => (tiles_touching v).filterMap fun t =>
              if b.tileResource t = Resource.desert then none else b.tileNumber t)
            then (0 : ℚ) else dice_probabilities roll) := by
        intro roll _
        exact if_congr htn.mem_iff rfl rfl
      rw [List.map_congr_left this]

lemma compute_quality_perm {l l' : List ℕ} (b : Board) (w1 w2 w3 : ℚ) (h : l.Perm l') :
    compute_quality l b w1 w2 w3 = compute_quality l' b w1 w2 w3 := by
  unfold compute_quality
  rw [resource_score_perm b h, expected_cards_perm b h, prob_at_least_one_perm b h]

/-- C9: for every board and every player in range, the precomputed pair
quality is symmetric in its two vertex arguments (the quality function treats
the pair as a set), and the diagonal holds the `-inf` sentinel. -/
theorem pair_quality_symm_and_sentinel (b : Board) (p v1 v2 : ℕ)
    (hp1 : 1 ≤ p) (hp2 : p ≤ b.num_players) (hv1 : v1 < 54) (hv2 : v2 < 54) :
    (v1 ≠ v2 → b.pair_quality p v1 v2 = b.pair_quality p v2 v1) ∧
    b.pair_quality p v1 v1 = ⊥ := by
  constructor
  · intro hne
    simp only [Board.pair_quality, if_neg hne, if_neg (Ne.symm hne)]
    rw [compute_quality_perm b _ _ _ (List.Perm.swap v2 v1 [])]
  · simp [Board.pair_quality]

/-- Witness for `pair_quality_symm_and_sentinel`: player 1 on the sample
board with vertices 0 and 1. -/
theorem pair_quality_symm_and_sentinel_witness :
    sampleBoard.pair_quality 1 0 1 = sampleBoard.pair_quality 1 1 0 ∧
    sampleBoard.pair_quality 1 0 0 = ⊥ :=
  ⟨(pair_quality_symm_and_sentinel sampleBoard 1 0 1 (by decide) (by decide)
      (by decide) (by decide)).1 (by decide),
    (pair_quality_symm_and_sentinel sampleBoard 1 0 1 (by decide) (by decide)
      (by decide) (by decide)).2⟩

/-- C10: the precomputed pair-quality matrix is identical across players:
board.py computes every player's matrix with the same calls to
`compute_quality` and the same weights, so the entries agree for any two
players in range. -/
theorem pair_quality_player_independent (b : Board) (p q v1 v2 : ℕ)
    (hp1 : 1 ≤ p) (hp2 : p ≤ b.num_players) (hq1 : 1 ≤ q) (hq2 : q ≤ b.num_players) :
    b.pair_quality p v1 v2 = b.pair_quality q v1 v2 := rfl

/-- Witness for `pair_quality_player_independent`: players 1 and 4 on the
sample board. -/
theorem pair_quality_player_independent_witness :
    sampleBoard.pair_quality 1 5 9 = sampleBoard.pair_quality 4 5 9 :=
  pair_quality_player_independent sampleBoard 1 4 5 9 (by decide) (by decide)
    (by decide) (by decide)
